import Mathlib

/-!
Shallow embedding of the MT4 "AI Scalping System" Expert Advisor.

The repository ships two variants of the EA:
  * `src/mt4/Expert Advisor.mq4` (embedded here with suffix `_mq4`), and
  * `src/unnamed/part_000` (suffix `_p0`),
which differ in `ExtractValue`, `CheckForSignals` and the trade-closure
reporting logic (`OnTrade`/`OnInit` watermark exists only in `_p0`).

MQL4 strings are modelled as `List Char`; MQL4 `double` market prices are
modelled as `ℚ`; tickets, tick counts and millisecond clocks as `ℕ`;
`int` inputs as `ℤ`.  `StringFind`'s failure value `-1` is modelled as
`Option.none`.
-/

/-- The character `\x7b` (opening brace), written via `Char.ofNat`. -/
def openBrace : Char := Char.ofNat 123

/-- The character `\x7d` (closing brace), written via `Char.ofNat`. -/
def closeBrace : Char := Char.ofNat 125

/-- MQL4 `StringFind hay needle`: index of the first occurrence of `needle`
in `hay` (`none` models MQL4's `-1`). -/
def stringFind : List Char → List Char → Option Nat
  | [], needle => if needle.isPrefixOf ([] : List Char) then some 0 else none
  | c :: t, needle =>
    if needle.isPrefixOf (c :: t) then some 0
    else (stringFind t needle).map (· + 1)

/-- MQL4 `StringSubstr s pos len` for non-negative arguments. -/
def stringSubstr (s : List Char) (pos len : Nat) : List Char :=
  (s.drop pos).take len

/-- Whitespace as trimmed by MQL4 `StringTrimLeft`/`StringTrimRight`. -/
def isWS (c : Char) : Bool :=
  c == ' ' || c == '\t' || c == '\n' || c == '\r'

/-- MQL4 `StringTrimLeft`. -/
def trimLeft (s : List Char) : List Char := s.dropWhile isWS

/-- MQL4 `StringTrimRight`. -/
def trimRight (s : List Char) : List Char := (s.reverse.dropWhile isWS).reverse

/-- The value-scanning loop of `ExtractValue` in `Expert Advisor.mq4`
(lines 415-427): starting from the cursor, count the characters consumed
before the loop breaks.  The cursor toggles `inString` on every unescaped
quote; a `,` or `\x7d` outside a quoted string stops the scan.  `prev` is
the character just before the cursor (`none` models `end == 0`). -/
def scanChars : List Char → Option Char → Bool → Nat
  | [], _, _ => 0
  | c :: rest, prev, inString =>
    if c = '"' ∧ prev ≠ some '\\' then 1 + scanChars rest (some c) (!inString)
    else if ¬inString ∧ (c = ',' ∨ c = closeBrace) then 0
    else 1 + scanChars rest (some c) inString

/-- `ExtractValue` from `src/mt4/Expert Advisor.mq4` (lines 401-439): find
`"key":`, scan forward with the quote-aware loop `scanChars`, trim
whitespace, and strip one surrounding pair of quotes if present. -/
def ExtractValue_mq4 (json key : List Char) : List Char :=
  let search : List Char := '"' :: (key ++ ['"', ':'])
  match stringFind json search with
  | none => []
  | some idx =>
    let start := idx + search.length
    let prev0 := (json.take start).getLast?
    let rest := json.drop start
    let n := scanChars rest prev0 false
    let value := trimRight (trimLeft (rest.take n))
    if stringSubstr value 0 1 = ['"'] ∧
        stringSubstr value (value.length - 1) 1 = ['"'] then
      stringSubstr value 1 (value.length - 2)
    else value

/-- The trailing-trim loop of `ExtractValue` in `part_000` (lines 500-503):
repeatedly remove a trailing space or quote. -/
def dropTrailQW (v : List Char) : List Char :=
  (v.reverse.dropWhile (fun c => c == ' ' || c == '"')).reverse

/-- `ExtractValue` from `src/unnamed/part_000` (lines 462-506): find
`"key":` (the source retries with the identical search string, which
changes nothing), skip leading spaces/quotes, scan to the first `,` or
`\x7d` with no quote tracking, then trim trailing spaces/quotes. -/
def ExtractValue_p0 (json key : List Char) : List Char :=
  let search : List Char := '"' :: (key ++ ['"', ':'])
  match stringFind json search with
  | none => []
  | some idx =>
    let start := idx + search.length
    let rest := (json.drop start).dropWhile (fun c => c == ' ' || c == '"')
    let value := rest.takeWhile (fun c => !(c == ',' || c == closeBrace))
    dropTrailQW value

/-! ## Signal polling (`CheckForSignals`) -/

/-- The reserved "no signal" sentinel body. -/
def noSignalSentinel : List Char := "no_signal".toList

/-- The skip test of `CheckForSignals` in `Expert Advisor.mq4` (line 180):
decoding is skipped when the transport result is empty or the body equals
the sentinel. -/
def noSignalSkip_mq4 (response : List Char) : Bool :=
  response == [] || response == noSignalSentinel

/-- The skip test of `CheckForSignals` in `part_000` (line 218): decoding
is skipped when the transport result is empty or
`StringFind(response, "no_signal") >= 0`, i.e. the body merely contains
the sentinel. -/
def noSignalSkip_p0 (response : List Char) : Bool :=
  response == [] || (stringFind response noSignalSentinel).isSome

/-! ## Tick collection and upload -/

/-- One market-data snapshot (`CollectTickData` formats exactly these five
fields into the tick JSON object). -/
structure Tick where
  timestamp : Nat
  bid : ℚ
  ask : ℚ
  spread : ℚ
  volume : Nat
deriving DecidableEq

/-- Global `tickBufferSize` (both versions, 500). -/
def tickBufferSize : Nat := 500

/-- The mutable globals touched by the tick pipeline: `tickData` together
with `tickCount` is modelled as the list of currently buffered ticks, and
`lastTickSend` as the millisecond timestamp of the last successful send. -/
structure EAState where
  tickBatch : List Tick
  lastTickSend : Nat
deriving DecidableEq

/-- Initial globals: empty buffer, `lastTickSend = 0`. -/
def initEAState : EAState := { tickBatch := [], lastTickSend := 0 }

/-- `CollectTickData` (`part_000` lines 142-170, mq4 lines 111-138): if the
buffer is at capacity the tick is dropped, otherwise it is appended. -/
def CollectTickData (st : EAState) (t : Tick) : EAState :=
  if st.tickBatch.length ≥ tickBufferSize then st
  else { st with tickBatch := st.tickBatch ++ [t] }

/-- `SendTickData` (`part_000` lines 175-208, mq4 lines 143-170): nothing
happens on an empty buffer; otherwise the serialized batch is posted and,
exactly when the transport `response` is non-empty, the buffer is cleared
(`tickCount = 0`) and `lastTickSend` is set to the current millisecond
clock `now`.  An empty response leaves all state untouched. -/
def SendTickData (st : EAState) (response : List Char) (now : Nat) : EAState :=
  if st.tickBatch.length = 0 then st
  else if response ≠ [] then { tickBatch := [], lastTickSend := now }
  else st

/-- The flush trigger in `OnTick` (`part_000` line 133, mq4 line 103):
`tickCount >= tickBufferSize || GetTickCount() - lastTickSend > 30000`. -/
def shouldSendTicks (tickCount now lastTickSend : Nat) : Bool :=
  tickCount ≥ tickBufferSize || now - lastTickSend > 30000

/-- One event touching the tick buffer: a collected tick, or a
`SendTickData` call whose transport returned `response` at time `now`. -/
inductive TickEvent where
  | collect (t : Tick)
  | send (response : List Char) (now : Nat)
deriving DecidableEq

/-- Dispatch one tick-buffer event. -/
def stepTick (st : EAState) : TickEvent → EAState
  | .collect t => CollectTickData st t
  | .send r now => SendTickData st r now

/-- Run a sequence of tick-buffer events. -/
def runTicks (st : EAState) (evs : List TickEvent) : EAState :=
  evs.foldl stepTick st

/-! ## Signal validation and execution -/

/-- The EA input parameters used by validation/execution. -/
structure EAConfig where
  symbol : List Char
  maxSpread : ℤ
  maxPositions : ℤ
  slippage : ℤ
  magicNumber : ℤ
  point : ℚ
  lotSize : ℚ
deriving DecidableEq

/-- Market data read via `MarketInfo` during validation/execution. -/
structure MarketState where
  spread : ℚ
  bid : ℚ
  ask : ℚ
deriving DecidableEq

/-- An order in the open-trades pool, as inspected by
`CountOpenPositions`. -/
structure OpenOrder where
  symbol : List Char
  magic : ℤ
deriving DecidableEq

/-- `CountOpenPositions` (`part_000` lines 332-346): the number of orders
in the open-trades pool whose symbol and magic number match this
session's (the source loops most-recent-first; the count is
order-independent). -/
def CountOpenPositions (sym : List Char) (mg : ℤ) (trades : List OpenOrder) : Nat :=
  trades.countP (fun o => o.symbol == sym && o.magic == mg)

/-- Direction literal `"BUY"`. -/
def BUY : List Char := "BUY".toList

/-- Direction literal `"SELL"`. -/
def SELL : List Char := "SELL".toList

/-- The distinct rejection reasons printed by `ValidateSignal`, one per
early `return false`. -/
inductive SignalReject where
  | spreadTooHigh
  | tooManyPositions
  | invalidDirection
  | buyPriceTooHigh
  | sellPriceTooLow
deriving DecidableEq

/-- `ValidateSignal` (`part_000` lines 249-291, mq4 lines 209-246),
returning `none` for `true` (accept) and the printed reason for each
early `return false`.  The four checks appear in source order: spread,
open-position count, direction string, price deviation. -/
def ValidateSignal (cfg : EAConfig) (mkt : MarketState) (trades : List OpenOrder)
    (direction : List Char) (entryPrice sl tp : ℚ) : Option SignalReject :=
  if mkt.spread > (cfg.maxSpread : ℚ) then some .spreadTooHigh
  else if (CountOpenPositions cfg.symbol cfg.magicNumber trades : ℤ) ≥ cfg.maxPositions then
    some .tooManyPositions
  else if direction ≠ BUY ∧ direction ≠ SELL then some .invalidDirection
  else if direction = BUY ∧ entryPrice > mkt.ask + (cfg.slippage : ℚ) * cfg.point then
    some .buyPriceTooHigh
  else if direction = SELL ∧ entryPrice < mkt.bid - (cfg.slippage : ℚ) * cfg.point then
    some .sellPriceTooLow
  else none

/-- `OP_BUY` order-type code. -/
def OP_BUY : Nat := 0

/-- `OP_SELL` order-type code. -/
def OP_SELL : Nat := 1

/-- The arguments `ExecuteSignal` passes to `OrderSend`. -/
structure OrderRequest where
  symbol : List Char
  orderType : Nat
  lots : ℚ
  price : ℚ
  slippage : ℤ
  sl : ℚ
  tp : ℚ
  comment : List Char
  magic : ℤ
deriving DecidableEq

/-- `ExecuteSignal` (`part_000` lines 296-327, mq4 lines 251-288), up to
the `OrderSend` call: the submitted price is the live ask for `"BUY"` and
the live bid otherwise; the signal's `entryPrice` is not used in the
request (in the mq4 version it only feeds two unused point variables). -/
def ExecuteSignal (cfg : EAConfig) (mkt : MarketState) (direction : List Char)
    (entryPrice sl tp : ℚ) : OrderRequest :=
  { symbol := cfg.symbol
    orderType := if direction = BUY then OP_BUY else OP_SELL
    lots := cfg.lotSize
    price := if direction = BUY then mkt.ask else mkt.bid
    slippage := cfg.slippage
    sl := sl
    tp := tp
    comment := "AI Scalping Signal".toList
    magic := cfg.magicNumber }

/-! ## Close-report watermark (`part_000` only) -/

/-- An order in the history pool, with the fields `OnInit`/`OnTrade`
inspect. -/
structure HistOrder where
  ticket : Nat
  symbol : List Char
  magic : ℤ
deriving DecidableEq

/-- The symbol/magic filter used by both history scans. -/
abbrev ordMatches (sym : List Char) (mg : ℤ) (o : HistOrder) : Prop :=
  o.symbol = sym ∧ o.magic = mg

/-- The `OnInit` scan (`part_000` lines 72-83): starting from the freshly
initialized `lastLoggedTicket = 0`, walk the history most-recent-first and
take `MathMax` over the tickets of matching orders. -/
def onInitWatermark (sym : List Char) (mg : ℤ) (hist : List HistOrder) : Nat :=
  hist.reverse.foldl (fun w o => if ordMatches sym mg o then max w o.ticket else w) 0

/-- The `OnTrade` scan body (`part_000` lines 514-547): the first order
(most-recent-first) matching this session with ticket above the
watermark, if any. -/
def findNewClosed (sym : List Char) (mg : ℤ) (w : Nat) : List HistOrder → Option HistOrder
  | [] => none
  | o :: rest =>
    if ordMatches sym mg o ∧ w < o.ticket then some o
    else findNewClosed sym mg w rest

/-- `OnTrade`'s selection over the history pool (scanned from the last
index down, i.e. over `hist.reverse`). -/
def OnTradeScan (sym : List Char) (mg : ℤ) (w : Nat) (hist : List HistOrder) :
    Option HistOrder :=
  findNewClosed sym mg w hist.reverse

/-- The watermark-relevant state across a run: the (only-growing) order
history pool, `lastLoggedTicket`, plus two observation-only logs — every
ticket for which `OnTrade` issued a close report (HTTP outcome
irrelevant: the source updates `lastLoggedTicket` before posting and
ignores the response), and every value `OnInit` derived at a session
start. -/
structure TradeState where
  hist : List HistOrder
  lastLoggedTicket : Nat
  reported : List Nat
  derived : List Nat
deriving DecidableEq

/-- Fresh process state: empty history, watermark 0, nothing reported. -/
def initTradeState : TradeState := ⟨[], 0, [], []⟩

/-- A close-report cycle.  Each event carries the orders appended to the
(append-only) history pool since the previous event.  A `sessionStart`
reinitializes `lastLoggedTicket` to 0 and reruns the `OnInit` scan; a
`tradeChange` runs `OnTrade`, whose HTTP outcome `httpOk` does not affect
the watermark. -/
inductive TradeEvent where
  | sessionStart (newOrders : List HistOrder)
  | tradeChange (newOrders : List HistOrder) (httpOk : Bool)
deriving DecidableEq

/-- Dispatch one close-report cycle. -/
def tradeStep (sym : List Char) (mg : ℤ) (s : TradeState) : TradeEvent → TradeState
  | .sessionStart newOrders =>
    let h := s.hist ++ newOrders
    let d := onInitWatermark sym mg h
    { hist := h, lastLoggedTicket := d, reported := s.reported, derived := s.derived ++ [d] }
  | .tradeChange newOrders _ =>
    let h := s.hist ++ newOrders
    match OnTradeScan sym mg s.lastLoggedTicket h with
    | some o =>
      { hist := h, lastLoggedTicket := o.ticket, reported := s.reported ++ [o.ticket],
        derived := s.derived }
    | none =>
      { hist := h, lastLoggedTicket := s.lastLoggedTicket, reported := s.reported,
        derived := s.derived }

/-- Run a sequence of close-report cycles. -/
def runTrade (sym : List Char) (mg : ℤ) (s : TradeState) (evs : List TradeEvent) :
    TradeState :=
  evs.foldl (tradeStep sym mg) s

/-- The trace of states visited while running `evs` from `s` (the input
state first, the final state last). -/
def tradeStates (sym : List Char) (mg : ℤ) (s : TradeState) :
    List TradeEvent → List TradeState
  | [] => [s]
  | e :: evs => s :: tradeStates sym mg (tradeStep sym mg s e) evs

/-- Maximum of a list of naturals (0 for the empty list). -/
def natMax (l : List Nat) : Nat := l.foldr max 0

/-- A fixed sample tick used by concrete witnesses. -/
def tick0 : Tick := { timestamp := 0, bid := 1, ask := 1, spread := 0, volume := 0 }

/-- A state whose buffer holds exactly 500 ticks. -/
def stFull : EAState := { tickBatch := List.replicate tickBufferSize tick0, lastTickSend := 0 }

/-- The configuration used by concrete validation witnesses: EURUSD,
`MaxSpread = 20`, `MaxPositions = 3`, `Slippage = 30`, magic 123456,
4-digit `Point`, `LotSize = 0.01`. -/
def cfgW : EAConfig :=
  { symbol := "EURUSD".toList, maxSpread := 20, maxPositions := 3, slippage := 30,
    magicNumber := 123456, point := 1 / 10000, lotSize := 1 / 100 }

/-- A JSON body whose value for `key` is the quoted string `val`:
`\x7b"key":"val"\x7d`. -/
def quotedJson (key val : List Char) : List Char :=
  openBrace :: ('"' :: (key ++ ['"', ':'])) ++ ('"' :: (val ++ ['"', closeBrace]))

/-- Example symbol for the watermark counterexample. -/
def exSym : List Char := "EURUSD".toList

/-- A matching historical order with ticket 100. -/
def ord100 : HistOrder := { ticket := 100, symbol := exSym, magic := 123456 }

/-- A matching historical order with ticket 200. -/
def ord200 : HistOrder := { ticket := 200, symbol := exSym, magic := 123456 }

/-- Event sequence for the watermark counterexample: ticket 100 closes
and is reported (with a failed HTTP post), then the session restarts
after ticket 200 — matching, never reported — has entered the history. -/
def exEvs : List TradeEvent :=
  [TradeEvent.tradeChange [ord100] false, TradeEvent.sessionStart [ord200]]

/-! ## Lemmas about the tick buffer -/

/-- A collect step preserves the capacity bound. -/
lemma collectTickData_length_le (st : EAState) (t : Tick)
    (h : st.tickBatch.length ≤ tickBufferSize) :
    (CollectTickData st t).tickBatch.length ≤ tickBufferSize := by
  unfold CollectTickData
  split
  · exact h
  · rename_i hlt
    simp only [List.length_append, List.length_singleton]
    omega

/-- A send step preserves the capacity bound. -/
lemma sendTickData_length_le (st : EAState) (r : List Char) (now : Nat)
    (h : st.tickBatch.length ≤ tickBufferSize) :
    (SendTickData st r now).tickBatch.length ≤ tickBufferSize := by
  unfold SendTickData
  split
  · exact h
  · split
    · simp
    · exact h

/-- A collect call at capacity is a no-op: the incoming tick is dropped. -/
lemma collectTickData_at_capacity (st : EAState) (t : Tick)
    (h : st.tickBatch.length = tickBufferSize) : CollectTickData st t = st := by
  unfold CollectTickData
  rw [if_pos (le_of_eq h.symm)]

/-- The capacity bound is inductive over any event sequence. -/
lemma runTicks_length_le (evs : List TickEvent) :
    ∀ st : EAState, st.tickBatch.length ≤ tickBufferSize →
      (runTicks st evs).tickBatch.length ≤ tickBufferSize := by
  induction evs with
  | nil => intro st h; exact h
  | cons e evs ih =>
    intro st h
    cases e with
    | collect t => exact ih _ (collectTickData_length_le st t h)
    | send r now => exact ih _ (sendTickData_length_le st r now h)

/-- C5: for every sequence of collected ticks interleaved with successful
or failed flushes, the buffered tick count never exceeds the capacity of
500, and a tick arriving while the batch is at capacity is dropped (the
state is left unchanged). -/
theorem tickBatch_never_exceeds_capacity :
    (∀ evs : List TickEvent,
        (runTicks initEAState evs).tickBatch.length ≤ tickBufferSize) ∧
    (∀ (st : EAState) (t : Tick), st.tickBatch.length = tickBufferSize →
        CollectTickData st t = st) := by
  constructor
  · intro evs
    exact runTicks_length_le evs initEAState (by simp [initEAState])
  · intro st t h
    exact collectTickData_at_capacity st t h

/-- Witness for C5: with the buffer at its 500-tick capacity, a collected
tick is dropped, and a concrete run respects the bound. -/
theorem tickBatch_never_exceeds_capacity_witness :
    CollectTickData stFull tick0 = stFull ∧
    (runTicks initEAState [TickEvent.collect tick0]).tickBatch.length ≤ tickBufferSize :=
  ⟨tickBatch_never_exceeds_capacity.2 stFull tick0 (by simp [stFull]),
   tickBatch_never_exceeds_capacity.1 [TickEvent.collect tick0]⟩

/-- C4: a failed upload (empty response) leaves the batch and the flush
timer completely unchanged; a successful upload (non-empty response) of a
non-empty batch clears the batch and resets the timer; with a full batch
of 500 a failed upload leaves the batch at 500 and the next collected
tick is dropped, while a successful upload clears it to 0. -/
theorem sendTickData_failure_retains_success_clears
    (st : EAState) (r : List Char) (now : Nat) (t : Tick) :
    (r = [] → SendTickData st r now = st) ∧
    (st.tickBatch ≠ [] → r ≠ [] →
      SendTickData st r now = { tickBatch := [], lastTickSend := now }) ∧
    (st.tickBatch.length = tickBufferSize →
      SendTickData st [] now = st ∧ CollectTickData st t = st) ∧
    (st.tickBatch.length = tickBufferSize → r ≠ [] →
      (SendTickData st r now).tickBatch.length = 0) := by
  refine ⟨?_, ?_, ?_, ?_⟩
  · intro hr
    unfold SendTickData
    subst hr
    simp
  · intro hb hr
    unfold SendTickData
    rw [if_neg (by simpa using hb), if_pos hr]
  · intro hfull
    refine ⟨?_, collectTickData_at_capacity st t hfull⟩
    unfold SendTickData
    simp
  · intro hfull hr
    unfold SendTickData
    rw [if_neg (by simp [hfull, tickBufferSize]), if_pos hr]
    rfl

/-- Witness for C4: concrete full batch, failed then successful upload. -/
theorem sendTickData_failure_retains_success_clears_witness :
    SendTickData stFull [] 42 = stFull ∧
    CollectTickData stFull tick0 = stFull ∧
    (SendTickData stFull "ok".toList 42).tickBatch.length = 0 := by
  have h := sendTickData_failure_retains_success_clears stFull "ok".toList 42 tick0
  have hfull : stFull.tickBatch.length = tickBufferSize := by simp [stFull]
  exact ⟨(h.2.2.1 hfull).1, (h.2.2.1 hfull).2, h.2.2.2 hfull (by decide)⟩

/-- Amended C3: a tick triggers a flush exactly when the buffered count
has reached the 500-tick capacity (equivalently, equals it, since the
count never exceeds capacity) or strictly more than 30000 ms have elapsed
since the previous successful flush; at exactly 30000 ms elapsed no flush
fires. -/
theorem flushTrigger_iff (c now last : Nat) (hc : c ≤ tickBufferSize) :
    shouldSendTicks c now last = true ↔ (c = tickBufferSize ∨ 30000 < now - last) := by
  unfold shouldSendTicks tickBufferSize
  unfold tickBufferSize at hc
  simp only [Bool.or_eq_true, decide_eq_true_eq, ge_iff_le]
  omega

/-- Witness for the amended C3 at the count boundary. -/
theorem flushTrigger_iff_witness : shouldSendTicks 500 0 0 = true :=
  (flushTrigger_iff 500 0 0 (le_refl 500)).mpr (Or.inl rfl)

/-- Counterexample to C3 as stated: with an elapsed time of exactly
30000 ms (and a non-full buffer) the trigger does not fire, because the
source compares with strict `> 30000`; at 30001 ms it does fire. -/
theorem flush_not_at_exactly_30000 :
    shouldSendTicks 0 30000 0 = false ∧ shouldSendTicks 0 30001 0 = true := by
  decide

/-- C9: the price `ExecuteSignal` submits to `OrderSend` is the live ask
for a `"BUY"` signal and the live bid otherwise, and the whole submitted
request (price field included) is independent of the signal's proposed
`entryPrice`. -/
theorem executeSignal_price_is_live_quote (cfg : EAConfig) (mkt : MarketState)
    (direction : List Char) (e e' sl tp : ℚ) :
    (ExecuteSignal cfg mkt direction e sl tp).price =
      (if direction = BUY then mkt.ask else mkt.bid) ∧
    ExecuteSignal cfg mkt direction e sl tp = ExecuteSignal cfg mkt direction e' sl tp :=
  ⟨rfl, rfl⟩

/-- C6: `ValidateSignal` short-circuits in source order — if the current
spread exceeds the configured maximum the signal is rejected for spread
regardless of every other field, and if the spread check passes but the
count of matching open positions has reached `MaxPositions` the signal is
rejected for position count regardless of direction and prices. -/
theorem validateSignal_spread_then_positions (cfg : EAConfig) (mkt : MarketState)
    (trades : List OpenOrder) (direction : List Char) (entryPrice sl tp : ℚ) :
    ((cfg.maxSpread : ℚ) < mkt.spread →
      ValidateSignal cfg mkt trades direction entryPrice sl tp =
        some SignalReject.spreadTooHigh) ∧
    (mkt.spread ≤ (cfg.maxSpread : ℚ) →
      cfg.maxPositions ≤ (CountOpenPositions cfg.symbol cfg.magicNumber trades : ℤ) →
      ValidateSignal cfg mkt trades direction entryPrice sl tp =
        some SignalReject.tooManyPositions) := by
  constructor
  · intro h
    unfold ValidateSignal
    rw [if_pos h]
  · intro hspread hcount
    unfold ValidateSignal
    rw [if_neg (not_lt.mpr hspread), if_pos hcount]

/-- Witness for C6: scenario A (spread 25 > 20 rejects for spread with
arbitrary other fields) and scenario B (spread fine, 3 matching open
positions with `MaxPositions = 3` rejects for position count). -/
theorem validateSignal_spread_then_positions_witness :
    ValidateSignal cfgW { spread := 25, bid := 1, ask := 1 } [] "XYZ".toList 0 0 0 =
      some SignalReject.spreadTooHigh ∧
    ValidateSignal cfgW { spread := 10, bid := 1, ask := 1 }
        (List.replicate 3 { symbol := "EURUSD".toList, magic := 123456 })
        "XYZ".toList 0 0 0 =
      some SignalReject.tooManyPositions := by
  constructor
  · exact (validateSignal_spread_then_positions cfgW _ [] _ 0 0 0).1 (by norm_num [cfgW])
  · exact (validateSignal_spread_then_positions cfgW _ _ _ 0 0 0).2
      (by norm_num [cfgW]) (by decide)

/-- C7: once the spread, position-count and direction checks pass, a
`"BUY"` signal is accepted exactly when its entry price is at most
`ask + Slippage * Point`, and a `"SELL"` signal exactly when its entry
price is at least `bid - Slippage * Point`. -/
theorem validateSignal_price_deviation (cfg : EAConfig) (mkt : MarketState)
    (trades : List OpenOrder) (entryPrice sl tp : ℚ)
    (hspread : mkt.spread ≤ (cfg.maxSpread : ℚ))
    (hcount : (CountOpenPositions cfg.symbol cfg.magicNumber trades : ℤ) < cfg.maxPositions) :
    (ValidateSignal cfg mkt trades BUY entryPrice sl tp = none ↔
      entryPrice ≤ mkt.ask + (cfg.slippage : ℚ) * cfg.point) ∧
    (ValidateSignal cfg mkt trades SELL entryPrice sl tp = none ↔
      mkt.bid - (cfg.slippage : ℚ) * cfg.point ≤ entryPrice) := by
  unfold ValidateSignal
  rw [if_neg (not_lt.mpr hspread), if_neg (not_le.mpr hcount),
    if_neg (not_lt.mpr hspread), if_neg (not_le.mpr hcount)]
  constructor
  · rw [if_neg (by simp [BUY, SELL])]
    by_cases h : mkt.ask + (cfg.slippage : ℚ) * cfg.point < entryPrice
    · rw [if_pos ⟨rfl, h⟩]
      simp [not_le.mpr h]
    · rw [if_neg (fun hc => h hc.2), if_neg (by simp [BUY, SELL])]
      simp [not_lt.mp h]
  · rw [if_neg (by simp [BUY, SELL]), if_neg (by simp [BUY, SELL])]
    by_cases h : entryPrice < mkt.bid - (cfg.slippage : ℚ) * cfg.point
    · rw [if_pos ⟨rfl, h⟩]
      simp [not_le.mpr h]
    · rw [if_neg (fun hc => h hc.2)]
      simp [not_lt.mp h]

/-- Witness for C7, scenario C: ask 1.10000, `Slippage * Point = 0.0030`;
entry 1.10250 is accepted, entry 1.10500 is rejected. -/
theorem validateSignal_price_deviation_witness :
    ValidateSignal cfgW { spread := 10, bid := 10999 / 10000, ask := 11 / 10 } []
        BUY (110250 / 100000) 0 0 = none ∧
    ValidateSignal cfgW { spread := 10, bid := 10999 / 10000, ask := 11 / 10 } []
        BUY (110500 / 100000) 0 0 ≠ none := by
  have h1 := validateSignal_price_deviation cfgW
    { spread := 10, bid := 10999 / 10000, ask := 11 / 10 } [] (110250 / 100000) 0 0
    (by norm_num [cfgW]) (by decide)
  have h2 := validateSignal_price_deviation cfgW
    { spread := 10, bid := 10999 / 10000, ask := 11 / 10 } [] (110500 / 100000) 0 0
    (by norm_num [cfgW]) (by decide)
  refine ⟨h1.1.mpr (by norm_num [cfgW]), fun hn => ?_⟩
  have := h2.1.mp hn
  norm_num [cfgW] at this

/-- C10: the direction check is an exact, case-sensitive string
comparison — when the spread and position-count checks pass, any
direction other than exactly `"BUY"` or exactly `"SELL"` is rejected with
the invalid-direction reason. -/
theorem validateSignal_direction_case_sensitive (cfg : EAConfig) (mkt : MarketState)
    (trades : List OpenOrder) (direction : List Char) (entryPrice sl tp : ℚ)
    (hspread : mkt.spread ≤ (cfg.maxSpread : ℚ))
    (hcount : (CountOpenPositions cfg.symbol cfg.magicNumber trades : ℤ) < cfg.maxPositions)
    (hb : direction ≠ BUY) (hs : direction ≠ SELL) :
    ValidateSignal cfg mkt trades direction entryPrice sl tp =
      some SignalReject.invalidDirection := by
  unfold ValidateSignal
  rw [if_neg (not_lt.mpr hspread), if_neg (not_le.mpr hcount), if_pos ⟨hb, hs⟩]

/-- Witness for C10: `"Buy"`, `"buy"` and `" BUY "` are all rejected as
invalid directions even though spread and position count are fine. -/
theorem validateSignal_direction_case_sensitive_witness :
    ValidateSignal cfgW { spread := 10, bid := 1, ask := 1 } [] "Buy".toList 1 0 0 =
      some SignalReject.invalidDirection ∧
    ValidateSignal cfgW { spread := 10, bid := 1, ask := 1 } [] "buy".toList 1 0 0 =
      some SignalReject.invalidDirection ∧
    ValidateSignal cfgW { spread := 10, bid := 1, ask := 1 } [] " BUY ".toList 1 0 0 =
      some SignalReject.invalidDirection :=
  ⟨validateSignal_direction_case_sensitive cfgW _ [] _ 1 0 0
      (by norm_num [cfgW]) (by decide) (by decide) (by decide),
   validateSignal_direction_case_sensitive cfgW _ [] _ 1 0 0
      (by norm_num [cfgW]) (by decide) (by decide) (by decide),
   validateSignal_direction_case_sensitive cfgW _ [] _ 1 0 0
      (by norm_num [cfgW]) (by decide) (by decide) (by decide)⟩

/-! ## Lemmas about `stringFind` -/

/-- `stringFind` succeeds when the needle is a prefix. -/
lemma stringFind_of_isPrefixOf (hay needle : List Char)
    (h : needle.isPrefixOf hay) : stringFind hay needle = some 0 := by
  cases hay <;> simp [stringFind, h]

/-- `stringFind` succeeds exactly when the needle occurs as a contiguous
substring of the haystack. -/
lemma stringFind_isSome_iff (hay needle : List Char) :
    (stringFind hay needle).isSome ↔ ∃ pre suf, hay = pre ++ needle ++ suf := by
  induction hay with
  | nil =>
    by_cases h : needle.isPrefixOf ([] : List Char)
    · rw [List.isPrefixOf_iff_prefix] at h
      rcases h with ⟨suf, hsuf⟩
      simp only [List.nil_eq, List.append_eq_nil] at hsuf
      simp [stringFind, hsuf.1, hsuf.2]
    · simp only [stringFind, if_neg h, Option.isSome_none, Bool.false_eq_true, false_iff]
      rintro ⟨pre, suf, hps⟩
      apply h
      rw [List.isPrefixOf_iff_prefix]
      simp only [List.nil_eq, List.append_eq_nil] at hps
      simp [hps.1.2]
  | cons c t ih =>
    by_cases h : needle.isPrefixOf (c :: t)
    · simp only [stringFind, if_pos h, Option.isSome_some, true_iff]
      rw [List.isPrefixOf_iff_prefix] at h
      rcases h with ⟨suf, hsuf⟩
      exact ⟨[], suf, by simp [hsuf]⟩
    · simp only [stringFind, if_neg h]
      have hmap : (Option.map (fun x => x + 1) (stringFind t needle)).isSome =
          (stringFind t needle).isSome := by
        cases stringFind t needle <;> rfl
      rw [hmap, ih]
      constructor
      · rintro ⟨pre, suf, hps⟩
        exact ⟨c :: pre, suf, by simp [hps]⟩
      · rintro ⟨pre, suf, hps⟩
        cases pre with
        | nil =>
          exfalso
          apply h
          rw [List.isPrefixOf_iff_prefix]
          exact ⟨suf, by simpa using hps.symm⟩
        | cons p pre' =>
          refine ⟨pre', suf, ?_⟩
          simpa using (by simpa using hps : c = p ∧ t = pre' ++ (needle ++ suf)).2

/-- Amended C8: the `Expert Advisor.mq4` version of `CheckForSignals`
skips decoding exactly when the transport result is empty or the body
equals the `"no_signal"` sentinel, but the `part_000` version skips
exactly when the body is empty or merely contains the sentinel as a
substring — so a decodable body embedding that token is also skipped
(e.g. `x ++ "no_signal"`). -/
theorem noSignalSkip_characterization :
    (∀ r : List Char, noSignalSkip_mq4 r = true ↔ (r = [] ∨ r = noSignalSentinel)) ∧
    (∀ r : List Char, noSignalSkip_p0 r = true ↔
      (r = [] ∨ ∃ pre suf, r = pre ++ noSignalSentinel ++ suf)) ∧
    noSignalSkip_p0 ("x".toList ++ noSignalSentinel) = true := by
  refine ⟨?_, ?_, by decide⟩
  · intro r
    simp [noSignalSkip_mq4]
  · intro r
    simp [noSignalSkip_p0, stringFind_isSome_iff]

/-- Counterexample to C8 as stated: `part_000` skips the non-empty,
non-sentinel response body `\x7b"status":"no_signal_pending"\x7d`, which
the claim says would be decoded and validated. -/
theorem noSignalSkip_p0_counterexample :
    noSignalSkip_p0 "\x7b\"status\":\"no_signal_pending\"\x7d".toList = true ∧
    "\x7b\"status\":\"no_signal_pending\"\x7d".toList ≠ noSignalSentinel ∧
    "\x7b\"status\":\"no_signal_pending\"\x7d".toList ≠ ([] : List Char) := by
  decide

/-! ## Lemmas about the quote-aware scan -/

/-- One unfolding step of `scanChars` on a non-empty input. -/
lemma scanChars_cons (c : Char) (rest : List Char) (prev : Option Char) (b : Bool) :
    scanChars (c :: rest) prev b =
      if c = '"' ∧ prev ≠ some '\\' then 1 + scanChars rest (some c) (!b)
      else if ¬b ∧ (c = ',' ∨ c = closeBrace) then 0
      else 1 + scanChars rest (some c) b := rfl

/-- Inside a quoted string, the scan walks through a quote-free,
backslash-free value, crosses the closing quote, and stops at the
following `\x7d`. -/
lemma scanChars_inString (val : List Char) (prev : Option Char)
    (hval : ∀ c ∈ val, c ≠ '"' ∧ c ≠ '\\') (hprev : prev ≠ some '\\') :
    scanChars (val ++ ['"', closeBrace]) prev true = val.length + 1 := by
  induction val generalizing prev with
  | nil =>
    rw [List.nil_append, scanChars_cons, if_pos ⟨rfl, hprev⟩]
    simp only [Bool.not_true]
    rw [scanChars_cons, if_neg (fun hand => absurd hand.1 (by decide)),
      if_pos ⟨by simp, Or.inr rfl⟩]
    simp
  | cons c val ih =>
    have hc := hval c (List.mem_cons_self c val)
    rw [List.cons_append, scanChars_cons, if_neg (fun hand => hc.1 hand.1),
      if_neg (fun hand => hand.1 rfl)]
    rw [ih (some c) (fun d hd => hval d (List.mem_cons_of_mem c hd))
      (by simpa using hc.2)]
    simp only [List.length_cons]
    omega

/-- One unfolding step of `stringFind` on a non-empty haystack. -/
lemma stringFind_cons (c : Char) (t needle : List Char) :
    stringFind (c :: t) needle =
      if needle.isPrefixOf (c :: t) then some 0
      else (stringFind t needle).map (· + 1) := rfl

/-- Taking `l₁.length + n` elements of `l₁ ++ l₂` takes all of `l₁` and
`n` elements of `l₂`. -/
lemma take_len_add (l₁ l₂ : List Char) (n : Nat) :
    (l₁ ++ l₂).take (l₁.length + n) = l₁ ++ l₂.take n := by
  induction l₁ with
  | nil => simp
  | cons c t ih =>
    simp only [List.cons_append, List.length_cons]
    rw [show t.length + 1 + n = (t.length + n) + 1 from by omega, List.take_succ_cons, ih]

/-- Amended C2: the quote-aware `ExtractValue` of `Expert Advisor.mq4`
returns the full unquoted value for any key whose value is a quoted
string free of quotes and backslashes — embedded commas included — while
the `ExtractValue` of `part_000` terminates the field at the first comma:
on `\x7b"direction":"a,b"\x7d` it returns the truncated prefix `a`. -/
theorem extractValue_quoted_comma (key val : List Char)
    (hval : ∀ c ∈ val, c ≠ '"' ∧ c ≠ '\\') :
    ExtractValue_mq4 (quotedJson key val) key = val ∧
    ExtractValue_p0 (quotedJson "direction".toList "a,b".toList) "direction".toList
      = "a".toList := by
  refine ⟨?_, by decide⟩
  have hpre : ('"' :: (key ++ ['"', ':'])).isPrefixOf
      (('"' :: (key ++ ['"', ':'])) ++ ('"' :: (val ++ ['"', closeBrace]))) = true := by
    rw [List.isPrefixOf_iff_prefix]
    exact List.prefix_append _ _
  have h1 : stringFind (quotedJson key val) ('"' :: (key ++ ['"', ':'])) = some 1 := by
    rw [show quotedJson key val =
        openBrace :: (('"' :: (key ++ ['"', ':'])) ++ ('"' :: (val ++ ['"', closeBrace])))
      from rfl, stringFind_cons]
    rw [if_neg (by
      simp only [List.isPrefixOf, show ('"' == openBrace) = false from by decide,
        Bool.false_and]
      exact fun hcontra => by exact absurd hcontra (by simp))]
    rw [stringFind_of_isPrefixOf _ _ hpre]
    rfl
  have hdrop : (quotedJson key val).drop (1 + ('"' :: (key ++ ['"', ':'])).length) =
      '"' :: (val ++ ['"', closeBrace]) := by
    show (openBrace :: (('"' :: (key ++ ['"', ':'])) ++ ('"' :: (val ++ ['"', closeBrace])))).drop
      (1 + ('"' :: (key ++ ['"', ':'])).length) = '"' :: (val ++ ['"', closeBrace])
    rw [Nat.add_comm, List.drop_succ_cons, List.drop_left]
  have htake : (quotedJson key val).take (1 + ('"' :: (key ++ ['"', ':'])).length) =
      openBrace :: ('"' :: (key ++ ['"', ':'])) := by
    show (openBrace :: (('"' :: (key ++ ['"', ':'])) ++ ('"' :: (val ++ ['"', closeBrace])))).take
      (1 + ('"' :: (key ++ ['"', ':'])).length) = openBrace :: ('"' :: (key ++ ['"', ':']))
    rw [Nat.add_comm, List.take_succ_cons, List.take_left]
  have hlast : (openBrace :: ('"' :: (key ++ ['"', ':']))).getLast? = some ':' := by
    rw [show openBrace :: ('"' :: (key ++ ['"', ':'])) =
        (openBrace :: '"' :: (key ++ ['"'])) ++ ([':'] : List Char) from by simp,
      List.getLast?_concat]
  have hscan : scanChars ('"' :: (val ++ ['"', closeBrace])) (some ':') false =
      val.length + 2 := by
    rw [scanChars_cons, if_pos ⟨rfl, by decide⟩]
    simp only [Bool.not_false]
    rw [scanChars_inString val (some '"') hval (by decide)]
    omega
  have htk : ('"' :: (val ++ ['"', closeBrace])).take (val.length + 2) =
      '"' :: (val ++ ['"']) := by
    rw [show val.length + 2 = (val.length + 1) + 1 from rfl, List.take_succ_cons,
      take_len_add]
    rfl
  have htl : trimLeft ('"' :: (val ++ ['"'])) = '"' :: (val ++ ['"']) := by
    rw [trimLeft, List.dropWhile_cons, if_neg (by decide)]
  have htr : trimRight ('"' :: (val ++ ['"'])) = '"' :: (val ++ ['"']) := by
    rw [trimRight, show ('"' :: (val ++ ['"']) : List Char) = ('"' :: val) ++ ['"'] from by simp,
      List.reverse_append]
    simp only [List.reverse_cons, List.reverse_nil, List.nil_append, List.singleton_append]
    rw [List.dropWhile_cons, if_neg (by decide)]
    simp
  have hlen : ('"' :: (val ++ ['"']) : List Char).length = val.length + 2 := by
    simp
  have hs0 : stringSubstr ('"' :: (val ++ ['"'])) 0 1 = ['"'] := rfl
  have hsl : stringSubstr ('"' :: (val ++ ['"'])) ((val.length + 2) - 1) 1 = ['"'] := by
    rw [stringSubstr, show (val.length + 2) - 1 = val.length + 1 from by omega,
      List.drop_succ_cons, List.drop_left]
    rfl
  have hstrip : stringSubstr ('"' :: (val ++ ['"'])) 1 ((val.length + 2) - 2) = val := by
    rw [stringSubstr, show (val.length + 2) - 2 = val.length from by omega,
      List.drop_succ_cons, List.drop_zero, List.take_left]
  simp only [ExtractValue_mq4, h1]
  rw [hdrop, htake, hlast, hscan, htk, htl, htr, hlen, if_pos ⟨hs0, hsl⟩, hstrip]

/-- Witness for the amended C2 at the spec's example value `"a,b"`. -/
theorem extractValue_quoted_comma_witness :
    ExtractValue_mq4 (quotedJson "direction".toList "a,b".toList) "direction".toList
      = "a,b".toList :=
  (extractValue_quoted_comma "direction".toList "a,b".toList (by decide)).1

/-- Counterexample to C2 as stated: on `\x7b"direction":"a,b"\x7d` the
`part_000` version of `ExtractValue` returns the truncated prefix `a`,
not the full string `a,b`. -/
theorem extractValue_p0_truncates_counterexample :
    ExtractValue_p0 "\x7b\"direction\":\"a,b\"\x7d".toList "direction".toList = "a".toList ∧
    "a".toList ≠ "a,b".toList := by
  decide

/-! ## Lemmas about the close-report watermark -/

/-- The `OnInit` fold never goes below its accumulator. -/
lemma foldl_watermark_ge_acc (sym : List Char) (mg : ℤ) (l : List HistOrder) (a : Nat) :
    a ≤ l.foldl (fun w o => if ordMatches sym mg o then max w o.ticket else w) a := by
  induction l generalizing a with
  | nil => exact le_refl a
  | cons o l ih =>
    refine le_trans ?_ (ih (if ordMatches sym mg o then max a o.ticket else a))
    split
    · exact le_max_left _ _
    · exact le_refl a

/-- The `OnInit` fold dominates the ticket of every matching order. -/
lemma foldl_watermark_ge_mem (sym : List Char) (mg : ℤ) (l : List HistOrder) (a : Nat)
    (o : HistOrder) (ho : o ∈ l) (hm : ordMatches sym mg o) :
    o.ticket ≤ l.foldl (fun w o => if ordMatches sym mg o then max w o.ticket else w) a := by
  induction l generalizing a with
  | nil => cases ho
  | cons c l ih =>
    rcases List.mem_cons.mp ho with rfl | hmem
    · refine le_trans ?_ (foldl_watermark_ge_acc sym mg l _)
      show o.ticket ≤ if ordMatches sym mg o then max a o.ticket else a
      rw [if_pos hm]
      exact le_max_right _ _
    · exact ih _ hmem

/-- The `OnInit` fold returns its accumulator or the ticket of some
matching order. -/
lemma foldl_watermark_cases (sym : List Char) (mg : ℤ) (l : List HistOrder) (a : Nat) :
    l.foldl (fun w o => if ordMatches sym mg o then max w o.ticket else w) a = a ∨
      ∃ o ∈ l, ordMatches sym mg o ∧
        o.ticket = l.foldl (fun w o => if ordMatches sym mg o then max w o.ticket else w) a := by
  induction l generalizing a with
  | nil => exact Or.inl rfl
  | cons c l ih =>
    rcases ih (if ordMatches sym mg c then max a c.ticket else a) with heq | ⟨o, ho, hm, ht⟩
    · by_cases hc : ordMatches sym mg c
      · rw [List.foldl_cons, heq, if_pos hc]
        rcases Nat.le_total a c.ticket with hle | hle
        · exact Or.inr ⟨c, List.mem_cons_self c l, hc, (Nat.max_eq_right hle).symm⟩
        · exact Or.inl (Nat.max_eq_left hle)
      · rw [List.foldl_cons, heq, if_neg hc]
        exact Or.inl rfl
    · exact Or.inr ⟨o, List.mem_cons_of_mem c ho, hm, ht⟩

/-- `onInitWatermark` dominates every matching ticket in the history. -/
lemma onInitWatermark_ge (sym : List Char) (mg : ℤ) (hist : List HistOrder)
    (o : HistOrder) (ho : o ∈ hist) (hm : ordMatches sym mg o) :
    o.ticket ≤ onInitWatermark sym mg hist :=
  foldl_watermark_ge_mem sym mg hist.reverse 0 o (List.mem_reverse.mpr ho) hm

/-- `onInitWatermark` is zero or the ticket of a matching order. -/
lemma onInitWatermark_cases (sym : List Char) (mg : ℤ) (hist : List HistOrder) :
    onInitWatermark sym mg hist = 0 ∨
      ∃ o ∈ hist, ordMatches sym mg o ∧ o.ticket = onInitWatermark sym mg hist := by
  rcases foldl_watermark_cases sym mg hist.reverse 0 with h | ⟨o, ho, hm, ht⟩
  · exact Or.inl h
  · exact Or.inr ⟨o, List.mem_reverse.mp ho, hm, ht⟩

/-- What a successful `OnTrade` scan returns: a matching order of the
history whose ticket is strictly above the watermark. -/
lemma findNewClosed_some (sym : List Char) (mg : ℤ) (w : Nat) (l : List HistOrder)
    (o : HistOrder) (h : findNewClosed sym mg w l = some o) :
    o ∈ l ∧ ordMatches sym mg o ∧ w < o.ticket := by
  induction l with
  | nil => cases h
  | cons c l ih =>
    rw [findNewClosed] at h
    split at h
    · rename_i hc
      cases h
      exact ⟨List.mem_cons_self _ _, hc.1, hc.2⟩
    · have := ih h
      exact ⟨List.mem_cons_of_mem c this.1, this.2.1, this.2.2⟩

/-- Same fact for the most-recent-first scan over the pool. -/
lemma OnTradeScan_some (sym : List Char) (mg : ℤ) (w : Nat) (hist : List HistOrder)
    (o : HistOrder) (h : OnTradeScan sym mg w hist = some o) :
    o ∈ hist ∧ ordMatches sym mg o ∧ w < o.ticket := by
  have := findNewClosed_some sym mg w hist.reverse o h
  exact ⟨List.mem_reverse.mp this.1, this.2.1, this.2.2⟩

/-- The watermark is zero or carried by a matching order of the current
history pool. -/
def wmSupported (sym : List Char) (mg : ℤ) (s : TradeState) : Prop :=
  s.lastLoggedTicket = 0 ∨
    ∃ o ∈ s.hist, ordMatches sym mg o ∧ o.ticket = s.lastLoggedTicket

/-- The watermark equals the maximum over every session-start-derived
value and every reported ticket. -/
def wmChar (s : TradeState) : Prop :=
  s.lastLoggedTicket = max (natMax s.derived) (natMax s.reported)

/-- Folding `max` with a non-zero seed. -/
lemma foldr_max_acc (l : List Nat) (a : Nat) : l.foldr max a = max (natMax l) a := by
  induction l with
  | nil => simp [natMax]
  | cons c l ih =>
    simp only [List.foldr_cons, ih, natMax]
    omega

/-- `natMax` over a snoc. -/
lemma natMax_append_singleton (l : List Nat) (t : Nat) :
    natMax (l ++ [t]) = max (natMax l) t := by
  rw [natMax, List.foldr_append]
  simp only [List.foldr_cons, List.foldr_nil]
  rw [foldr_max_acc]
  omega

/-- Every step raises or keeps the watermark. -/
lemma tradeStep_mono (sym : List Char) (mg : ℤ) (s : TradeState) (e : TradeEvent)
    (hsupp : wmSupported sym mg s) :
    s.lastLoggedTicket ≤ (tradeStep sym mg s e).lastLoggedTicket := by
  cases e with
  | sessionStart newOrders =>
    rcases hsupp with h0 | ⟨o, ho, hm, ht⟩
    · rw [h0]; exact Nat.zero_le _
    · rw [← ht]
      exact onInitWatermark_ge sym mg _ o (List.mem_append_left newOrders ho) hm
  | tradeChange newOrders ok =>
    rcases hscan : OnTradeScan sym mg s.lastLoggedTicket (s.hist ++ newOrders) with _ | o
    · simp [tradeStep, hscan]
    · have := OnTradeScan_some sym mg _ _ o hscan
      simp [tradeStep, hscan]
      exact Nat.le_of_lt this.2.2

/-- Every step preserves watermark support. -/
lemma tradeStep_supp (sym : List Char) (mg : ℤ) (s : TradeState) (e : TradeEvent)
    (hsupp : wmSupported sym mg s) :
    wmSupported sym mg (tradeStep sym mg s e) := by
  cases e with
  | sessionStart newOrders =>
    rcases onInitWatermark_cases sym mg (s.hist ++ newOrders) with h0 | ⟨o, ho, hm, ht⟩
    · exact Or.inl h0
    · exact Or.inr ⟨o, ho, hm, ht⟩
  | tradeChange newOrders ok =>
    rcases hscan : OnTradeScan sym mg s.lastLoggedTicket (s.hist ++ newOrders) with _ | o
    · rcases hsupp with h0 | ⟨o, ho, hm, ht⟩
      · refine Or.inl ?_
        simp only [tradeStep, hscan]
        exact h0
      · refine Or.inr ⟨o, ?_, hm, ?_⟩
        · simp only [tradeStep, hscan]
          exact List.mem_append_left newOrders ho
        · simp only [tradeStep, hscan]
          exact ht
    · have h := OnTradeScan_some sym mg _ _ o hscan
      refine Or.inr ⟨o, ?_, h.2.1, ?_⟩
      · simp only [tradeStep, hscan]
        exact h.1
      · simp only [tradeStep, hscan]

/-- Every step preserves the max characterization of the watermark. -/
lemma tradeStep_char (sym : List Char) (mg : ℤ) (s : TradeState) (e : TradeEvent)
    (hsupp : wmSupported sym mg s) (hchar : wmChar s) :
    wmChar (tradeStep sym mg s e) := by
  have hmono := tradeStep_mono sym mg s e hsupp
  cases e with
  | sessionStart newOrders =>
    rw [wmChar] at hchar ⊢
    simp only [tradeStep] at hmono ⊢
    rw [natMax_append_singleton]
    omega
  | tradeChange newOrders ok =>
    rcases hscan : OnTradeScan sym mg s.lastLoggedTicket (s.hist ++ newOrders) with _ | o
    · rw [wmChar] at hchar ⊢
      simp only [tradeStep, hscan]
      exact hchar
    · have h := OnTradeScan_some sym mg _ _ o hscan
      rw [wmChar] at hchar ⊢
      simp only [tradeStep, hscan]
      rw [natMax_append_singleton]
      have := h.2.2
      omega

/-- The trace always starts with the input state. -/
lemma tradeStates_head (sym : List Char) (mg : ℤ) (s : TradeState)
    (evs : List TradeEvent) : (tradeStates sym mg s evs).head? = some s := by
  cases evs <;> rfl

/-- Main run invariant: from a supported, characterized state the trace
of watermarks is non-decreasing and the final state is again supported
and characterized. -/
lemma runTrade_invariant (sym : List Char) (mg : ℤ) (evs : List TradeEvent) :
    ∀ s : TradeState, wmSupported sym mg s → wmChar s →
      ((tradeStates sym mg s evs).map TradeState.lastLoggedTicket).Chain' (· ≤ ·) ∧
        wmSupported sym mg (runTrade sym mg s evs) ∧ wmChar (runTrade sym mg s evs) := by
  induction evs with
  | nil =>
    intro s hsupp hchar
    exact ⟨List.chain'_singleton _, hsupp, hchar⟩
  | cons e evs ih =>
    intro s hsupp hchar
    have hsupp' := tradeStep_supp sym mg s e hsupp
    have hchar' := tradeStep_char sym mg s e hsupp hchar
    have hrec := ih (tradeStep sym mg s e) hsupp' hchar'
    refine ⟨?_, hrec.2.1, hrec.2.2⟩
    rw [tradeStates, List.map_cons, List.chain'_cons']
    refine ⟨?_, hrec.1⟩
    intro y hy
    rw [List.head?_map, tradeStates_head, Option.map_some'] at hy
    cases hy
    exact tradeStep_mono sym mg s e hsupp

/-- Amended C1: across every sequence of session-start and
trade-change-notification cycles over the (append-only) order history,
the watermark `lastLoggedTicket` is monotonically non-decreasing, and it
always equals the maximum over all session-start-derived values and all
tickets reported as closed (reports whose HTTP post failed included) —
but not necessarily the maximum reported ticket alone, since a
session-start rederivation can exceed every reported ticket. -/
theorem watermark_monotone_and_characterization (sym : List Char) (mg : ℤ)
    (evs : List TradeEvent) :
    ((tradeStates sym mg initTradeState evs).map TradeState.lastLoggedTicket).Chain'
        (· ≤ ·) ∧
      (runTrade sym mg initTradeState evs).lastLoggedTicket =
        max (natMax (runTrade sym mg initTradeState evs).derived)
          (natMax (runTrade sym mg initTradeState evs).reported) := by
  have h := runTrade_invariant sym mg evs initTradeState (Or.inl rfl) (by rw [wmChar]; rfl)
  exact ⟨h.1, h.2.2⟩

/-- Counterexample to C1 as stated: report ticket 100 (HTTP fails), then
restart the session after matching ticket 200 entered the history without
ever being reported.  The watermark becomes 200 while the maximum ticket
ever reported as closed is 100. -/
theorem watermark_not_max_reported_counterexample :
    (runTrade exSym 123456 initTradeState exEvs).lastLoggedTicket = 200 ∧
    (runTrade exSym 123456 initTradeState exEvs).reported = [100] ∧
    (runTrade exSym 123456 initTradeState exEvs).lastLoggedTicket ≠
      natMax (runTrade exSym 123456 initTradeState exEvs).reported := by
  decide
